import Mathlib

/-!
Verification of the Hybrid Question-Resolution Engine of the 498-backend
repository (the `search_faq` handler in `app.py`, lines 191-357), against its
natural-language specification.

Python strings are modelled as lists of characters (`Text`); Python's float
scores are modelled as rationals (every quantity the scorer produces is an
exact multiple of 1/2, so this is faithful).  The external AI collaborator
(`ai_service.smart_answer`) is an opaque capability passed as a parameter:
either it returns an answer payload or it fails with an error text.  The
wall-clock `timestamp` field of the JSON payloads is transport metadata, not
part of the resolution outcome, and is omitted from the model; likewise the
opaque `emotion_analysis` passthrough.
-/

/-- Text as a list of characters (model of a Python `str`). -/
abbrev Text := List Char

/-- Model of Python `str.lower()`, character by character. -/
def lowerText (t : Text) : Text := t.map Char.toLower

/-- Helper for `pywords`: `cur` holds the characters of the word currently
being accumulated, in reverse order. -/
def wordsAux : List Char → List Char → List (List Char)
  | cur, [] => if cur = [] then [] else [cur.reverse]
  | cur, c :: cs =>
    if c.isWhitespace then
      if cur = [] then wordsAux [] cs else cur.reverse :: wordsAux [] cs
    else wordsAux (c :: cur) cs

/-- Model of Python `str.split()` with no argument: the maximal runs of
non-whitespace characters, in order; no empty chunks. -/
def pywords (t : Text) : List (List Char) := wordsAux [] t

/-- A stored FAQ record, as read by `search_faq` from the storage
collaborator: an identifier, a question text and an answer text
(the `CandidateRecord` of the spec). -/
structure FAQ where
  id : Nat
  question : Text
  answer : Text
deriving DecidableEq

/-- The relevance scorer of `search_faq` (app.py lines 217-241): for each
token of the candidate question longer than 2 characters that is a substring
of the lowered user question, add 1; for each such token of the candidate
answer, add 0.5; if the lowered user question and candidate question contain
one another (either direction), add 5; likewise for the candidate answer,
add 3.  All comparisons on lowered text. -/
def score (uq : Text) (f : FAQ) : ℚ :=
  let u := lowerText uq
  let ql := lowerText f.question
  let al := lowerText f.answer
  let s1 := (pywords ql).foldl (fun s w => if 2 < w.length ∧ w <:+: u then s + 1 else s) 0
  let s2 := (pywords al).foldl (fun s w => if 2 < w.length ∧ w <:+: u then s + 1/2 else s) s1
  let s3 := if u <:+: ql ∨ ql <:+: u then s2 + 5 else s2
  if u <:+: al ∨ al <:+: u then s3 + 3 else s3

/-- The lexical score as the specification describes it (spec 4.1 / claim C1):
a sum, computed case-insensitively, of 1.0 for each token of the candidate's
stored question longer than 2 characters occurring as a substring of the
user's question, 0.5 for each such token of the stored answer, 5.0 for
bidirectional containment between user question and candidate question, and
3.0 for bidirectional containment between user question and candidate
answer. -/
def scoreSpec (uq : Text) (f : FAQ) : ℚ :=
  ((pywords (lowerText f.question)).map
      (fun w => if 2 < w.length ∧ w <:+: lowerText uq then (1 : ℚ) else 0)).sum
  + ((pywords (lowerText f.answer)).map
      (fun w => if 2 < w.length ∧ w <:+: lowerText uq then (1/2 : ℚ) else 0)).sum
  + (if lowerText uq <:+: lowerText f.question ∨ lowerText f.question <:+: lowerText uq
      then 5 else 0)
  + (if lowerText uq <:+: lowerText f.answer ∨ lowerText f.answer <:+: lowerText uq
      then 3 else 0)

/-- The tier that produced a resolution (spec 3, `ResolutionResult.source`).
The handler's literal source strings map as: `'database'` and
`'database_faq'` to `database`, `'ai_service'` to `ai`,
`'database_faq_fallback'` to `databaseFallback`, `'database_partial_match'`
to `partialMatch`, `'no_match'` to `noMatch`, `'error'` to `error`. -/
inductive Source
  | database
  | ai
  | databaseFallback
  | partialMatch
  | noMatch
  | error
deriving DecidableEq

/-- Coarse confidence label (spec 3). -/
inductive Confidence
  | high
  | medium
  | low
deriving DecidableEq

/-- The fallback tier that fired (the handler's literal `strategy` strings
`'database_first'`, `'ai_fallback'`, `'database_fallback'`,
`'partial_database_match'`, `'no_match'`). -/
inductive Strategy
  | databaseFirst
  | aiFallback
  | databaseFallback
  | partialDatabaseMatch
  | noMatch
deriving DecidableEq

/-- Payload returned by a successful call of the AI collaborator
(`ai_service.smart_answer`).  Fields the handler reads with `dict.get`
defaults are optional here. -/
structure AIAnswer where
  answer : Text
  confidence : Option Confidence
  similarity : Option ℚ
  requiresHuman : Option Bool

/-- The AI collaborator: either an answer payload or a failure with an error
text. -/
abbrev AIService := Text → List FAQ → Except Text AIAnswer

/-- The structured resolution outcome (spec 3 `ResolutionResult`).  Optional
fields model JSON keys that only some tiers emit.  The wall-clock timestamp
and the echoed input question are transport metadata and omitted. -/
structure ResolutionResult where
  answer : Text
  source : Source
  confidence : Confidence
  found : Bool
  faqId : Option Nat := none
  relevanceScore : Option ℚ := none
  strategy : Option Strategy := none
  similarity : Option ℚ := none
  requiresHuman : Option Bool := none
  matchedWord : Option Text := none
  aiError : Option Text := none
  availableTopics : Option (List Text) := none

/-- Convenience: the characters of a string literal. -/
def str (s : String) : Text := s.data

/-- The selection loop of `search_faq` (app.py lines 214-246): state is the
pair (best_match, best_score), updated whenever a candidate scores strictly
above the current best score. -/
def selectAux (uq : Text) : Option FAQ × ℚ → List FAQ → Option FAQ × ℚ
  | st, [] => st
  | st, f :: fs =>
    if st.2 < score uq f then selectAux uq (some f, score uq f) fs
    else selectAux uq st fs

/-- The match selector: run the selection loop from (None, 0). -/
def selectBest (uq : Text) (faqs : List FAQ) : Option FAQ × ℚ :=
  selectAux uq (none, 0) faqs

/-- Response of app.py lines 204-210 (no FAQ records in the database).  Note
the code tags this response with source string `'database'`, not
`'no_match'`. -/
def noFaqsResult : ResolutionResult :=
  { answer := str "No FAQs available in the database."
    source := Source.database
    confidence := Confidence.low
    found := false }

/-- Response of app.py lines 249-260 (confident database match). -/
def dbConfidentResult (f : FAQ) (bs : ℚ) : ResolutionResult :=
  { answer := f.answer
    source := Source.database
    confidence := if 3 < bs then Confidence.high else Confidence.medium
    found := true
    faqId := some f.id
    relevanceScore := some bs
    strategy := some Strategy.databaseFirst }

/-- Response of app.py lines 269-280 (AI collaborator succeeded), applying
the handler's `dict.get` defaults. -/
def aiAnswerResult (r : AIAnswer) : ResolutionResult :=
  { answer := r.answer
    source := Source.ai
    confidence := r.confidence.getD Confidence.medium
    found := true
    strategy := some Strategy.aiFallback
    similarity := some (r.similarity.getD 0)
    requiresHuman := some (r.requiresHuman.getD false) }

/-- Response of app.py lines 286-298 (AI failed, positive-score best match
kept as fallback). -/
def dbFallbackResult (f : FAQ) (bs : ℚ) (e : Text) : ResolutionResult :=
  { answer := f.answer
    source := Source.databaseFallback
    confidence := Confidence.low
    found := true
    faqId := some f.id
    relevanceScore := some bs
    strategy := some Strategy.databaseFallback
    aiError := some e }

/-- One entry of the handler's `partial_matches` list (app.py lines 311-317):
the record, the matched user-question token, and the constant local score 1
the code stores under the `'score'` key. -/
structure PartialHit where
  faq : FAQ
  matchedWord : Text
  hitScore : ℚ
deriving DecidableEq

/-- The partial-match scan (app.py lines 301-318): for each record in order,
and for each token of the lowered user question longer than 3 characters, in
order, record a hit when the token occurs in the record's lowered question or
answer. -/
def partialHits (uq : Text) (faqs : List FAQ) : List PartialHit :=
  (faqs.map (fun f =>
    (pywords (lowerText uq)).filterMap (fun w =>
      if 3 < w.length ∧ (w <:+: lowerText f.question ∨ w <:+: lowerText f.answer)
      then some { faq := f, matchedWord := w, hitScore := 1 } else none))).flatten

/-- Model of Python `max(xs, key=k)` on a nonempty list (head plus tail):
scan left to right, replacing the current maximum only on a strictly greater
key, so the first of several equal-key elements wins. -/
def pyMaxBy (key : PartialHit → ℚ) : PartialHit → List PartialHit → PartialHit
  | cur, [] => cur
  | cur, h :: t => if key cur < key h then pyMaxBy key h t else pyMaxBy key cur t

/-- Response of app.py lines 320-345 (AI failed, best partial hit returned),
with the inexactness prefix on the answer. -/
def partialMatchResult (hit : PartialHit) (e : Text) : ResolutionResult :=
  { answer := str "While I don\x27t have an exact answer, here\x27s some related information: "
      ++ hit.faq.answer
    source := Source.partialMatch
    confidence := Confidence.low
    found := true
    faqId := some hit.faq.id
    strategy := some Strategy.partialDatabaseMatch
    matchedWord := some hit.matchedWord
    aiError := some e }

/-- Response of app.py lines 346-353 (AI failed, no hits anywhere): up to 8
candidate questions offered as topics. -/
def noMatchResult (faqs : List FAQ) (e : Text) : ResolutionResult :=
  { answer := str "I couldn\x27t find a specific answer to your question. Here are some available topics you can ask about:"
    source := Source.noMatch
    confidence := Confidence.low
    found := false
    strategy := some Strategy.noMatch
    availableTopics := some ((faqs.map FAQ.question).take 8)
    aiError := some e }

/-- App.py lines 320-353: scan for partial hits; return the best hit (Python
`max` with the stored score as key) or the no-match response. -/
def partialOrNoMatch (uq : Text) (faqs : List FAQ) (e : Text) : ResolutionResult :=
  match partialHits uq faqs with
  | [] => noMatchResult faqs e
  | h :: t => partialMatchResult (pyMaxBy PartialHit.hitScore h t) e

/-- App.py lines 282-353 (the `except` branch around the AI call): keep the
best match when it exists with positive score, else degrade to the
partial-match scan. -/
def afterAIFail (uq : Text) (faqs : List FAQ) (best : Option FAQ × ℚ) (e : Text) :
    ResolutionResult :=
  match best.1 with
  | some f => if 0 < best.2 then dbFallbackResult f best.2 e else partialOrNoMatch uq faqs e
  | none => partialOrNoMatch uq faqs e

/-- App.py lines 263-353: call the AI collaborator; on success return its
answer, on failure degrade. -/
def tryAI (uq : Text) (faqs : List FAQ) (ai : AIService) (best : Option FAQ × ℚ) :
    ResolutionResult :=
  match ai uq faqs with
  | Except.ok r => aiAnswerResult r
  | Except.error e => afterAIFail uq faqs best e

/-- The resolution pipeline of `search_faq` (app.py lines 200-353), after the
empty-question validation: empty candidate list short-circuits; a best match
with score at least 2 is returned as a confident database match (`and` in
`best_match and best_score >= 2` requires the match to exist); otherwise the
AI collaborator is tried. -/
def resolve (uq : Text) (faqs : List FAQ) (ai : AIService) : ResolutionResult :=
  if faqs = [] then noFaqsResult
  else
    match selectBest uq faqs with
    | (some f, bs) =>
      if 2 ≤ bs then dbConfidentResult f bs
      else tryAI uq faqs ai (some f, bs)
    | (none, bs) => tryAI uq faqs ai (none, bs)

/-- The running maximum the selection loop computes: the fold of `max` over
the scores, started at the initial best score. -/
def runMax (uq : Text) (b : ℚ) (faqs : List FAQ) : ℚ :=
  faqs.foldl (fun m f => max m (score uq f)) b

/-- Nat-valued mirror of the scorer counting half points (one token point of
the Python code is two half points here); used only to evaluate concrete
inputs by kernel computation, and proved equivalent in `score_eq_half`. -/
def score2 (uq : Text) (f : FAQ) : ℕ :=
  let u := lowerText uq
  let ql := lowerText f.question
  let al := lowerText f.answer
  let s1 := (pywords ql).foldl (fun s w => if 2 < w.length ∧ w <:+: u then s + 2 else s) 0
  let s2 := (pywords al).foldl (fun s w => if 2 < w.length ∧ w <:+: u then s + 1 else s) s1
  let s3 := if u <:+: ql ∨ ql <:+: u then s2 + 10 else s2
  if u <:+: al ∨ al <:+: u then s3 + 6 else s3

def selectAux2 (uq : Text) : Option FAQ × ℕ → List FAQ → Option FAQ × ℕ
  | st, [] => st
  | st, f :: fs =>
    if st.2 < score2 uq f then selectAux2 uq (some f, score2 uq f) fs
    else selectAux2 uq st fs

/-- Nat-valued mirror of the match selector (scores in half points), proved
equivalent in `selectBest_half`; used to evaluate concrete inputs by kernel
computation. -/
def selectBest2 (uq : Text) (faqs : List FAQ) : Option FAQ × ℕ :=
  selectAux2 uq (none, 0) faqs

/-- The containment bonuses of the scorer alone (app.py lines 236-241): 5
for bidirectional containment between the lowered user question and the
lowered candidate question, plus 3 for the candidate answer. -/
def containmentBonus (uq : Text) (f : FAQ) : ℚ :=
  (if lowerText uq <:+: lowerText f.question ∨ lowerText f.question <:+: lowerText uq
    then 5 else 0)
  + (if lowerText uq <:+: lowerText f.answer ∨ lowerText f.answer <:+: lowerText uq
    then 3 else 0)

/-- Decidable test of the partial-match scan for one token: the token is
longer than 3 characters and occurs in the record's lowered question or
answer (the nested condition of app.py lines 311-313). -/
def hitTest (f : FAQ) (w : List Char) : Bool :=
  decide (3 < w.length ∧ (w <:+: lowerText f.question ∨ w <:+: lowerText f.answer))

theorem foldl_if_add (p : List Char → Prop) [DecidablePred p] (c : ℚ) :
    ∀ (l : List (List Char)) (s0 : ℚ),
      l.foldl (fun s w => if p w then s + c else s) s0
        = s0 + (l.map (fun w => if p w then c else 0)).sum := by
  intro l
  induction l with
  | nil => intro s0; simp
  | cons w t ih =>
    intro s0
    by_cases hw : p w
    · simp only [List.foldl_cons, List.map_cons, List.sum_cons, if_pos hw, ih]
      ring
    · simp only [List.foldl_cons, List.map_cons, List.sum_cons, if_neg hw, ih]
      norm_num

theorem score_formula (uq : Text) (f : FAQ) : score uq f = scoreSpec uq f := by
  simp only [score, scoreSpec]
  rw [foldl_if_add, foldl_if_add]
  split <;> split <;> ring

/-- Claim C1: the lexical score of a user question against a candidate record
equals the sum, computed case-insensitively, of 1.0 per long-enough candidate
question token contained in the user question, 0.5 per such answer token,
5.0 for bidirectional user-question/candidate-question containment and 3.0
for bidirectional user-question/candidate-answer containment, with no
normalization by length. -/
theorem score_eq_scoreSpec (uq : Text) (f : FAQ) : score uq f = scoreSpec uq f :=
  score_formula uq f

theorem score_nonneg (uq : Text) (f : FAQ) : 0 ≤ score uq f := by
  rw [score_formula]
  unfold scoreSpec
  have h1 : (0:ℚ) ≤ ((pywords (lowerText f.question)).map
      (fun w => if 2 < w.length ∧ w <:+: lowerText uq then (1 : ℚ) else 0)).sum := by
    apply List.sum_nonneg
    intro x hx
    simp only [List.mem_map] at hx
    obtain ⟨w, _, rfl⟩ := hx
    split <;> norm_num
  have h2 : (0:ℚ) ≤ ((pywords (lowerText f.answer)).map
      (fun w => if 2 < w.length ∧ w <:+: lowerText uq then (1/2 : ℚ) else 0)).sum := by
    apply List.sum_nonneg
    intro x hx
    simp only [List.mem_map] at hx
    obtain ⟨w, _, rfl⟩ := hx
    split <;> norm_num
  have h3 : (0:ℚ) ≤ (if lowerText uq <:+: lowerText f.question ∨
      lowerText f.question <:+: lowerText uq then (5:ℚ) else 0) := by split <;> norm_num
  have h4 : (0:ℚ) ≤ (if lowerText uq <:+: lowerText f.answer ∨
      lowerText f.answer <:+: lowerText uq then (3:ℚ) else 0) := by split <;> norm_num
  linarith

theorem runMax_nil (uq : Text) (b : ℚ) : runMax uq b [] = b := rfl

theorem runMax_cons (uq : Text) (b : ℚ) (f : FAQ) (fs : List FAQ) :
    runMax uq b (f :: fs) = runMax uq (max b (score uq f)) fs := rfl

theorem le_runMax (uq : Text) : ∀ (fs : List FAQ) (b : ℚ), b ≤ runMax uq b fs := by
  intro fs
  induction fs with
  | nil => intro b; simp [runMax_nil]
  | cons f t ih =>
    intro b
    rw [runMax_cons]
    exact le_trans (le_max_left _ _) (ih _)

theorem score_le_runMax (uq : Text) :
    ∀ (fs : List FAQ) (b : ℚ) (f : FAQ), f ∈ fs → score uq f ≤ runMax uq b fs := by
  intro fs
  induction fs with
  | nil => intro b f hf; cases hf
  | cons g t ih =>
    intro b f hf
    rw [runMax_cons]
    rcases List.mem_cons.mp hf with h | h
    · subst h
      exact le_trans (le_max_right _ _) (le_runMax uq t _)
    · exact ih _ f h

theorem runMax_mono (uq : Text) :
    ∀ (fs : List FAQ) (b b' : ℚ), b ≤ b' → runMax uq b fs ≤ runMax uq b' fs := by
  intro fs
  induction fs with
  | nil => intro b b' h; simpa [runMax_nil] using h
  | cons f t ih =>
    intro b b' h
    rw [runMax_cons, runMax_cons]
    exact ih _ _ (max_le_max_right _ h)

theorem runMax_le_of_all_le (uq : Text) :
    ∀ (fs : List FAQ) (b c : ℚ), b ≤ c → (∀ f ∈ fs, score uq f ≤ c) →
      runMax uq b fs ≤ c := by
  intro fs
  induction fs with
  | nil => intro b c hb _; simpa [runMax_nil] using hb
  | cons f t ih =>
    intro b c hb hall
    rw [runMax_cons]
    exact ih _ _ (max_le hb (hall f (List.mem_cons_self f t)))
      (fun g hg => hall g (List.mem_cons_of_mem f hg))

theorem selectAux_snd (uq : Text) :
    ∀ (fs : List FAQ) (st : Option FAQ × ℚ), (selectAux uq st fs).2 = runMax uq st.2 fs := by
  intro fs
  induction fs with
  | nil => intro st; rfl
  | cons f t ih =>
    intro st
    rw [runMax_cons]
    simp only [selectAux]
    by_cases h : st.2 < score uq f
    · rw [if_pos h, ih]
      have : max st.2 (score uq f) = score uq f := max_eq_right (le_of_lt h)
      rw [this]
    · rw [if_neg h, ih]
      have : max st.2 (score uq f) = st.2 := max_eq_left (le_of_not_lt h)
      rw [this]

theorem selectAux_no_improve (uq : Text) :
    ∀ (fs : List FAQ) (st : Option FAQ × ℚ),
      (∀ f ∈ fs, score uq f ≤ st.2) → selectAux uq st fs = st := by
  intro fs
  induction fs with
  | nil => intro st _; rfl
  | cons f t ih =>
    intro st hall
    simp only [selectAux]
    rw [if_neg (not_lt.mpr (hall f (List.mem_cons_self f t)))]
    exact ih st (fun g hg => hall g (List.mem_cons_of_mem f hg))

theorem selectAux_find (uq : Text) :
    ∀ (fs : List FAQ) (b : Option FAQ) (bs : ℚ), bs < runMax uq bs fs →
      selectAux uq (b, bs) fs
        = (fs.find? (fun f => decide (score uq f = runMax uq bs fs)), runMax uq bs fs) := by
  intro fs
  induction fs with
  | nil =>
    intro b bs h
    rw [runMax_nil] at h
    exact absurd h (lt_irrefl bs)
  | cons f t ih =>
    intro b bs h
    have hM : runMax uq bs (f :: t) = runMax uq (max bs (score uq f)) t := runMax_cons uq bs f t
    by_cases hlt : bs < score uq f
    · have hmax : max bs (score uq f) = score uq f := max_eq_right (le_of_lt hlt)
      have hM' : runMax uq bs (f :: t) = runMax uq (score uq f) t := by rw [hM, hmax]
      simp only [selectAux, if_pos hlt]
      by_cases hst : score uq f < runMax uq (score uq f) t
      · have hne : ¬ (score uq f = runMax uq bs (f :: t)) := by
          rw [hM']; exact ne_of_lt hst
        rw [List.find?_cons_of_neg _ (by simpa using hne)]
        rw [ih (some f) (score uq f) hst, hM']
      · have heq : runMax uq (score uq f) t = score uq f :=
          le_antisymm (le_of_not_lt hst) (le_runMax uq t _)
        have hall : ∀ g ∈ t, score uq g ≤ score uq f := by
          intro g hg
          have := score_le_runMax uq t (score uq f) g hg
          linarith [heq]
        rw [selectAux_no_improve uq t (some f, score uq f) hall]
        have hfeq : score uq f = runMax uq bs (f :: t) := by rw [hM', heq]
        rw [List.find?_cons_of_pos _ (by simpa using hfeq), hM', heq]
    · have hmax : max bs (score uq f) = bs := max_eq_left (le_of_not_lt hlt)
      have hM' : runMax uq bs (f :: t) = runMax uq bs t := by rw [hM, hmax]
      simp only [selectAux, if_neg hlt]
      rw [hM'] at h
      have hne : ¬ (score uq f = runMax uq bs (f :: t)) := by
        rw [hM']
        intro hcontra
        have h1 : score uq f ≤ bs := le_of_not_lt hlt
        linarith
      rw [List.find?_cons_of_neg _ (by simpa using hne)]
      rw [ih b bs h, hM']

theorem selectBest_char (uq : Text) (fs : List FAQ) (h : 0 < runMax uq 0 fs) :
    selectBest uq fs
      = (fs.find? (fun f => decide (score uq f = runMax uq 0 fs)), runMax uq 0 fs) :=
  selectAux_find uq fs none 0 h

theorem selectBest_all_nonpos (uq : Text) (fs : List FAQ)
    (h : ∀ f ∈ fs, score uq f ≤ 0) : selectBest uq fs = (none, 0) :=
  selectAux_no_improve uq fs (none, 0) h

theorem selectBest_snd (uq : Text) (fs : List FAQ) :
    (selectBest uq fs).2 = runMax uq 0 fs :=
  selectAux_snd uq fs (none, 0)

theorem sum_if_eq_count (p : List Char → Prop) [DecidablePred p] (c : ℚ) :
    ∀ (l : List (List Char)),
      (l.map (fun w => if p w then c else 0)).sum
        = c * l.countP (fun w => decide (p w)) := by
  intro l
  induction l with
  | nil => simp
  | cons w t ih =>
    by_cases hw : p w
    · rw [List.map_cons, List.sum_cons, if_pos hw, ih,
        List.countP_cons_of_pos _ _ (by simpa using hw)]
      push_cast
      ring
    · rw [List.map_cons, List.sum_cons, if_neg hw, ih,
        List.countP_cons_of_neg _ _ (by simpa using hw)]
      ring_nf

theorem foldl_if_add_nat (p : List Char → Prop) [DecidablePred p] (c : ℕ) :
    ∀ (l : List (List Char)) (s0 : ℕ),
      l.foldl (fun s w => if p w then s + c else s) s0
        = s0 + c * l.countP (fun w => decide (p w)) := by
  intro l
  induction l with
  | nil => intro s0; simp
  | cons w t ih =>
    intro s0
    by_cases hw : p w
    · rw [List.foldl_cons, if_pos hw, ih,
        List.countP_cons_of_pos _ _ (by simpa using hw)]
      ring_nf
    · rw [List.foldl_cons, if_neg hw, ih,
        List.countP_cons_of_neg _ _ (by simpa using hw)]

theorem score_eq_half (uq : Text) (f : FAQ) : score uq f = (score2 uq f : ℚ) / 2 := by
  rw [score_formula]
  simp only [scoreSpec, score2]
  rw [sum_if_eq_count, sum_if_eq_count, foldl_if_add_nat, foldl_if_add_nat]
  split <;> split <;> push_cast <;> ring

theorem selectAux_half (uq : Text) :
    ∀ (fs : List FAQ) (b : Option FAQ) (n : ℕ),
      selectAux uq (b, (n : ℚ)/2) fs
        = ((selectAux2 uq (b, n) fs).1, ((selectAux2 uq (b, n) fs).2 : ℚ)/2) := by
  intro fs
  induction fs with
  | nil => intro b n; rfl
  | cons f t ih =>
    intro b n
    simp only [selectAux, selectAux2]
    rw [score_eq_half uq f]
    have hc : ((n : ℚ)/2 < (score2 uq f : ℚ)/2) ↔ (n < score2 uq f) := by
      constructor
      · intro h
        have h2 : (n : ℚ) < (score2 uq f : ℚ) := by linarith
        exact_mod_cast h2
      · intro h
        have h2 : (n : ℚ) < (score2 uq f : ℚ) := by exact_mod_cast h
        linarith
    by_cases h : n < score2 uq f
    · rw [if_pos (hc.mpr h), if_pos h, ih]
    · rw [if_neg (fun hq => h (hc.mp hq)), if_neg h, ih]

theorem selectBest_half (uq : Text) (fs : List FAQ) :
    selectBest uq fs
      = ((selectBest2 uq fs).1, ((selectBest2 uq fs).2 : ℚ)/2) := by
  have h0 : (0 : ℚ) = ((0 : ℕ) : ℚ)/2 := by norm_num
  rw [selectBest, h0, selectAux_half]
  rfl

theorem isWhitespace_toLower (c : Char) :
    (Char.toLower c).isWhitespace = c.isWhitespace := by
  simp only [Char.toLower]
  split
  · next h =>
    obtain ⟨h1, h2⟩ := h
    have hc : Char.ofNat c.toNat = c := Char.ofNat_toNat c
    generalize hn : c.toNat = n at h1 h2 hc ⊢
    subst hc
    interval_cases n <;> decide
  · rfl

theorem wordsAux_map_lower (l : List Char) :
    ∀ (cur : List Char),
      wordsAux (cur.map Char.toLower) (l.map Char.toLower)
        = (wordsAux cur l).map (List.map Char.toLower) := by
  induction l with
  | nil =>
    intro cur
    simp only [List.map_nil, wordsAux]
    by_cases h : cur = []
    · subst h; simp
    · rw [if_neg (by simpa using h), if_neg h]
      simp
  | cons c cs ih =>
    intro cur
    simp only [List.map_cons, wordsAux, isWhitespace_toLower]
    by_cases hw : c.isWhitespace
    · rw [if_pos hw, if_pos hw]
      by_cases h : cur = []
      · subst h
        simpa using ih []
      · rw [if_neg (by simpa using h), if_neg h]
        have h0 := ih []
        simp only [List.map_nil] at h0
        rw [h0, List.map_cons]
        simp
    · rw [if_neg hw, if_neg hw]
      simpa using ih (c :: cur)

theorem wordsAux_nonws (l : List Char) :
    ∀ (cur : List Char), (∀ c ∈ cur, ¬ c.isWhitespace = true) →
      ∀ tok ∈ wordsAux cur l, ∀ c ∈ tok, ¬ c.isWhitespace = true := by
  induction l with
  | nil =>
    intro cur hcur tok htok
    simp only [wordsAux] at htok
    by_cases h : cur = []
    · rw [if_pos h] at htok; cases htok
    · rw [if_neg h] at htok
      simp only [List.mem_singleton] at htok
      subst htok
      intro c hc
      exact hcur c (List.mem_reverse.mp hc)
  | cons d ds ih =>
    intro cur hcur tok htok
    simp only [wordsAux] at htok
    by_cases hw : d.isWhitespace
    · rw [if_pos hw] at htok
      by_cases h : cur = []
      · rw [if_pos h] at htok
        exact ih [] (by simp) tok htok
      · rw [if_neg h] at htok
        rcases List.mem_cons.mp htok with h1 | h1
        · subst h1
          intro c hc
          exact hcur c (List.mem_reverse.mp hc)
        · exact ih [] (by simp) tok h1
    · rw [if_neg hw] at htok
      refine ih (d :: cur) ?_ tok htok
      intro c hc
      rcases List.mem_cons.mp hc with h1 | h1
      · subst h1; exact hw
      · exact hcur c h1

theorem wordsAux_acc_le (cs : List Char) :
    ∀ (cur : List Char), cur ≠ [] →
      ∃ tok ∈ wordsAux cur cs, cur.length ≤ tok.length := by
  induction cs with
  | nil =>
    intro cur h
    refine ⟨cur.reverse, ?_, ?_⟩
    · simp [wordsAux, if_neg h]
    · simp
  | cons d ds ih =>
    intro cur h
    simp only [wordsAux]
    by_cases hw : d.isWhitespace
    · rw [if_pos hw, if_neg h]
      exact ⟨cur.reverse, List.mem_cons_self _ _, by simp⟩
    · rw [if_neg hw]
      obtain ⟨tok, htok, hle⟩ := ih (d :: cur) (List.cons_ne_nil d cur)
      refine ⟨tok, htok, ?_⟩
      simp only [List.length_cons] at hle
      omega

theorem wordsAuxFrontLe (cs : List Char) :
    ∀ (w cur : List Char), cur ≠ [] → w <+: cs →
      (∀ c ∈ w, ¬ c.isWhitespace = true) →
      ∃ tok ∈ wordsAux cur cs, cur.length + w.length ≤ tok.length := by
  induction cs with
  | nil =>
    intro w cur hcur hp _
    obtain ⟨u2, hu2⟩ := hp
    have hw : w = [] := (List.append_eq_nil.mp hu2).1
    subst hw
    obtain ⟨tok, htok, hle⟩ := wordsAux_acc_le [] cur hcur
    exact ⟨tok, htok, by simpa using hle⟩
  | cons d ds ih =>
    intro w cur hcur hp hnw
    cases w with
    | nil =>
      obtain ⟨tok, htok, hle⟩ := wordsAux_acc_le (d :: ds) cur hcur
      exact ⟨tok, htok, by simpa using hle⟩
    | cons a w' =>
      obtain ⟨t, ht⟩ := hp
      rw [List.cons_append] at ht
      have had : a = d := (List.cons.injEq _ _ _ _).mp ht |>.1
      have hds : w' ++ t = ds := (List.cons.injEq _ _ _ _).mp ht |>.2
      have hdnw : ¬ d.isWhitespace = true := by
        rw [← had]
        exact hnw a (List.mem_cons_self a w')
      simp only [wordsAux, if_neg hdnw]
      obtain ⟨tok, htok, hle⟩ :=
        ih w' (d :: cur) (List.cons_ne_nil d cur) ⟨t, hds⟩
          (fun c hc => hnw c (List.mem_cons_of_mem a hc))
      refine ⟨tok, htok, ?_⟩
      simp only [List.length_cons] at hle ⊢
      omega

theorem wordsAux_sub_le (l : List Char) :
    ∀ (cur w : List Char), w ≠ [] → (∀ c ∈ w, ¬ c.isWhitespace = true) →
      w <:+: l → ∃ tok ∈ wordsAux cur l, w.length ≤ tok.length := by
  induction l with
  | nil =>
    intro cur w hne _ hsub
    obtain ⟨s, t, hst⟩ := hsub
    have := List.append_eq_nil.mp (List.append_eq_nil.mp hst).1
    exact absurd this.2 hne
  | cons c cs ih =>
    intro cur w hne hnw hsub
    obtain ⟨s, t, hst⟩ := hsub
    cases s with
    | nil =>
      simp only [List.nil_append] at hst
      cases w with
      | nil => exact absurd rfl hne
      | cons a w' =>
        rw [List.cons_append] at hst
        have hac : a = c := (List.cons.injEq _ _ _ _).mp hst |>.1
        have hcs : w' ++ t = cs := (List.cons.injEq _ _ _ _).mp hst |>.2
        have hcnw : ¬ c.isWhitespace = true := by
          rw [← hac]
          exact hnw a (List.mem_cons_self a w')
        simp only [wordsAux, if_neg hcnw]
        obtain ⟨tok, htok, hle⟩ :=
          wordsAuxFrontLe cs w' (c :: cur) (List.cons_ne_nil c cur) ⟨t, hcs⟩
            (fun x hx => hnw x (List.mem_cons_of_mem a hx))
        refine ⟨tok, htok, ?_⟩
        simp only [List.length_cons] at hle ⊢
        omega
    | cons e s' =>
      rw [List.cons_append, List.cons_append] at hst
      have hcs : s' ++ w ++ t = cs := by
        have := (List.cons.injEq _ _ _ _).mp hst |>.2
        simpa [List.append_assoc] using this
      have hsub' : w <:+: cs := ⟨s', t, hcs⟩
      simp only [wordsAux]
      by_cases hw : c.isWhitespace
      · rw [if_pos hw]
        by_cases h : cur = []
        · rw [if_pos h]
          exact ih [] w hne hnw hsub'
        · rw [if_neg h]
          obtain ⟨tok, htok, hle⟩ := ih [] w hne hnw hsub'
          exact ⟨tok, List.mem_cons_of_mem _ htok, hle⟩
      · rw [if_neg hw]
        exact ih (c :: cur) w hne hnw hsub'

theorem no_long_sub (u w : List Char)
    (hshort : ∀ tok ∈ pywords u, tok.length ≤ 2)
    (hlen : 2 < w.length) (hnw : ∀ c ∈ w, ¬ c.isWhitespace = true) :
    ¬ (w <:+: u) := by
  intro hsub
  have hne : w ≠ [] := by
    intro h
    subst h
    simp at hlen
  obtain ⟨tok, htok, hle⟩ := wordsAux_sub_le u [] w hne hnw hsub
  have := hshort tok htok
  omega

theorem selectBest_ne_nil (uq : Text) (fs : List FAQ) (f : FAQ) (bs : ℚ)
    (h : selectBest uq fs = (some f, bs)) : fs ≠ [] := by
  intro hnil
  subst hnil
  simp only [selectBest, selectAux] at h
  cases h

theorem resolve_db (uq : Text) (fs : List FAQ) (ai : AIService) (f : FAQ) (bs : ℚ)
    (hsel : selectBest uq fs = (some f, bs)) (h2 : 2 ≤ bs) :
    resolve uq fs ai = dbConfidentResult f bs := by
  have hne := selectBest_ne_nil uq fs f bs hsel
  simp only [resolve, if_neg hne, hsel, if_pos h2]

theorem resolve_not_confident (uq : Text) (fs : List FAQ) (ai : AIService) (f : FAQ) (bs : ℚ)
    (hsel : selectBest uq fs = (some f, bs)) (h2 : ¬ 2 ≤ bs) :
    resolve uq fs ai = tryAI uq fs ai (some f, bs) := by
  have hne := selectBest_ne_nil uq fs f bs hsel
  simp only [resolve, if_neg hne, hsel, if_neg h2]

theorem resolve_none_best (uq : Text) (fs : List FAQ) (ai : AIService) (bs : ℚ)
    (hne : fs ≠ []) (hsel : selectBest uq fs = (none, bs)) :
    resolve uq fs ai = tryAI uq fs ai (none, bs) := by
  simp only [resolve, if_neg hne, hsel]

theorem tryAI_source (uq : Text) (fs : List FAQ) (ai : AIService) (st : Option FAQ × ℚ) :
    (tryAI uq fs ai st).source = Source.ai
    ∨ (tryAI uq fs ai st).source = Source.databaseFallback
    ∨ (tryAI uq fs ai st).source = Source.partialMatch
    ∨ (tryAI uq fs ai st).source = Source.noMatch := by
  obtain ⟨b, bs⟩ := st
  cases hai : ai uq fs with
  | ok r =>
    simp only [tryAI, hai]
    left
    rfl
  | error e =>
    cases b with
    | some f =>
      by_cases hp : 0 < bs
      · simp only [tryAI, hai, afterAIFail, if_pos hp]
        right; left; rfl
      · simp only [tryAI, hai, afterAIFail, if_neg hp, partialOrNoMatch]
        cases hph : partialHits uq fs with
        | nil => right; right; right; rfl
        | cons h t => right; right; left; rfl
    | none =>
      simp only [tryAI, hai, afterAIFail, partialOrNoMatch]
      cases hph : partialHits uq fs with
      | nil => right; right; right; rfl
      | cons h t => right; right; left; rfl

theorem pywords_lower (t : Text) :
    pywords (lowerText t) = (pywords t).map (List.map Char.toLower) := by
  have h := wordsAux_map_lower t []
  simpa [pywords, lowerText] using h

/-- Claim C7 (amended): for every user question all of whose whitespace
tokens have length at most 2 (in particular the empty question), neither
token bonus of the scorer can fire, so the lexical score against any
candidate record equals exactly the containment bonuses (5 and/or 3 when the
containment checks hold, 0 otherwise).  The original claim (score 0) fails
because the containment bonuses do not require any long token. -/
theorem short_tokens_score (uq : Text) (f : FAQ)
    (h : ∀ tok ∈ pywords uq, tok.length ≤ 2) :
    score uq f = containmentBonus uq f := by
  rw [score_formula]
  unfold scoreSpec containmentBonus
  have hlow : ∀ tok ∈ pywords (lowerText uq), tok.length ≤ 2 := by
    intro tok htok
    rw [pywords_lower] at htok
    obtain ⟨tok2, htok2, rfl⟩ := List.mem_map.mp htok
    simpa using h tok2 htok2
  have hzero : ∀ (s : Text), ∀ w ∈ pywords (lowerText s),
      ¬ (2 < w.length ∧ w <:+: lowerText uq) := by
    rintro s w hw ⟨hlen, hsub⟩
    have hnw := wordsAux_nonws (lowerText s) [] (by simp) w hw
    exact no_long_sub (lowerText uq) w hlow hlen hnw hsub
  have hs1 : ((pywords (lowerText f.question)).map
      (fun w => if 2 < w.length ∧ w <:+: lowerText uq then (1 : ℚ) else 0)).sum = 0 := by
    apply List.sum_eq_zero
    intro x hx
    obtain ⟨w, hw, rfl⟩ := List.mem_map.mp hx
    rw [if_neg (hzero f.question w hw)]
  have hs2 : ((pywords (lowerText f.answer)).map
      (fun w => if 2 < w.length ∧ w <:+: lowerText uq then (1/2 : ℚ) else 0)).sum = 0 := by
    apply List.sum_eq_zero
    intro x hx
    obtain ⟨w, hw, rfl⟩ := List.mem_map.mp hx
    rw [if_neg (hzero f.answer w hw)]
  rw [hs1, hs2]
  ring

/-- Claim C7 is false as stated: the user question "ab" consists of a single
token of length 2, yet it scores 5 (not 0) against the candidate whose
stored question is "ab", because the bidirectional-containment bonus needs
no token longer than 2 characters. -/
theorem short_tokens_counterex :
    ((pywords (str "ab")).all (fun t => t.length ≤ 2) = true)
    ∧ score (str "ab") ⟨1, str "ab", str "zz"⟩ = 5 := by
  constructor
  · decide
  · have h2 : score2 (str "ab") ⟨1, str "ab", str "zz"⟩ = 10 := by decide
    rw [score_eq_half, h2]
    norm_num

theorem short_tokens_score_witness :
    (∀ tok ∈ pywords (str "ab"), tok.length ≤ 2)
    ∧ score (str "ab") ⟨1, str "ab", str "zz"⟩
        = containmentBonus (str "ab") ⟨1, str "ab", str "zz"⟩ :=
  ⟨by decide, short_tokens_score (str "ab") ⟨1, str "ab", str "zz"⟩ (by decide)⟩

theorem runMax_pos_ne_nil (uq : Text) (fs : List FAQ) (h : 0 < runMax uq 0 fs) :
    fs ≠ [] := by
  intro hnil
  subst hnil
  rw [runMax_nil] at h
  exact absurd h (lt_irrefl 0)

/-- Claim C2 is false as stated: against the single candidate
(question "b", answer "c"), the user question "a" gives the score 0; the
sole (hence first) candidate attains the maximal score 0, yet the selector
returns no best match, because the loop only replaces the initial best score
0 on a strict improvement. -/
theorem selector_zero_counterex :
    score (str "a") ⟨1, str "b", str "c"⟩ = 0
    ∧ selectBest (str "a") [⟨1, str "b", str "c"⟩] = (none, 0) := by
  have h2 : score2 (str "a") ⟨1, str "b", str "c"⟩ = 0 := by decide
  have hs : score (str "a") ⟨1, str "b", str "c"⟩ = 0 := by
    rw [score_eq_half, h2]
    norm_num
  refine ⟨hs, ?_⟩
  apply selectBest_all_nonpos
  intro f hf
  simp only [List.mem_singleton] at hf
  subst hf
  rw [hs]

/-- Claim C2 (amended): when some candidate scores positively (equivalently,
the running maximum over the candidates is positive), the selector returns
the first candidate in input order attaining the maximal score, together
with that maximum; a selected match is confident — i.e. the resolution takes
the confident database tier — exactly when its score is at least 2, and a
confident match is labeled high when its score exceeds 3, else medium.
(When every candidate scores 0 the selector returns no match at all; see the
counterexample.) -/
theorem selectBest_first_max (uq : Text) (fs : List FAQ) (ai : AIService)
    (hpos : 0 < runMax uq 0 fs) :
    selectBest uq fs
      = (fs.find? (fun f => decide (score uq f = runMax uq 0 fs)), runMax uq 0 fs)
    ∧ (∀ f bs, selectBest uq fs = (some f, bs) →
        (((resolve uq fs ai).source = Source.database
          ∧ (resolve uq fs ai).strategy = some Strategy.databaseFirst) ↔ 2 ≤ bs)
        ∧ (2 ≤ bs → (resolve uq fs ai).confidence
            = (if 3 < bs then Confidence.high else Confidence.medium))) := by
  refine ⟨selectBest_char uq fs hpos, ?_⟩
  intro f bs hsel
  refine ⟨⟨?_, ?_⟩, ?_⟩
  · rintro ⟨hsrc, _⟩
    by_contra h2
    rw [resolve_not_confident uq fs ai f bs hsel h2] at hsrc
    rcases tryAI_source uq fs ai (some f, bs) with h | h | h | h <;>
      rw [h] at hsrc <;> exact Source.noConfusion hsrc
  · intro h2
    rw [resolve_db uq fs ai f bs hsel h2]
    exact ⟨rfl, rfl⟩
  · intro h2
    rw [resolve_db uq fs ai f bs hsel h2]
    rfl

theorem selectBest_first_max_witness :
    0 < runMax (str "hello there") 0 [⟨1, str "hello world", str "xx"⟩]
    ∧ (selectBest (str "hello there") [⟨1, str "hello world", str "xx"⟩]
        = ([⟨1, str "hello world", str "xx"⟩].find?
            (fun f => decide (score (str "hello there") f
              = runMax (str "hello there") 0 [⟨1, str "hello world", str "xx"⟩])),
          runMax (str "hello there") 0 [⟨1, str "hello world", str "xx"⟩])
      ∧ (∀ f bs,
          selectBest (str "hello there") [⟨1, str "hello world", str "xx"⟩] = (some f, bs) →
          (((resolve (str "hello there") [⟨1, str "hello world", str "xx"⟩]
              (fun _ _ => Except.error (str "down"))).source = Source.database
            ∧ (resolve (str "hello there") [⟨1, str "hello world", str "xx"⟩]
                (fun _ _ => Except.error (str "down"))).strategy
                = some Strategy.databaseFirst) ↔ 2 ≤ bs)
          ∧ (2 ≤ bs → (resolve (str "hello there") [⟨1, str "hello world", str "xx"⟩]
              (fun _ _ => Except.error (str "down"))).confidence
              = (if 3 < bs then Confidence.high else Confidence.medium)))) := by
  have h2 : score2 (str "hello there") ⟨1, str "hello world", str "xx"⟩ = 2 := by decide
  have hpos : 0 < runMax (str "hello there") 0 [⟨1, str "hello world", str "xx"⟩] := by
    rw [runMax_cons, runMax_nil, score_eq_half, h2]
    rw [max_eq_right (by norm_num : (0:ℚ) ≤ ((2:ℕ):ℚ)/2)]
    norm_num
  exact ⟨hpos, selectBest_first_max (str "hello there") [⟨1, str "hello world", str "xx"⟩]
    (fun _ _ => Except.error (str "down")) hpos⟩

theorem runMax_attained (uq : Text) :
    ∀ (fs : List FAQ) (b : ℚ),
      runMax uq b fs = b ∨ ∃ g ∈ fs, runMax uq b fs = score uq g := by
  intro fs
  induction fs with
  | nil => intro b; left; rfl
  | cons f t ih =>
    intro b
    rw [runMax_cons]
    rcases ih (max b (score uq f)) with h | ⟨g, hg, hgeq⟩
    · rcases le_total (score uq f) b with hle | hle
      · left; rw [h, max_eq_left hle]
      · right
        exact ⟨f, List.mem_cons_self f t, by rw [h, max_eq_right hle]⟩
    · right
      exact ⟨g, List.mem_cons_of_mem f hg, hgeq⟩

/-- Claim C3: whenever some candidate's full stored question occurs
case-insensitively inside the user's question, that candidate scores at
least 5, and the resolution reaches the confident database tier
(found, source `database`, strategy `database_first`) for every AI
collaborator — in particular the result does not depend on the AI
collaborator, which is never consulted on this path. -/
theorem containment_database_confident (uq : Text) (fs : List FAQ) (f : FAQ)
    (ai : AIService) (hmem : f ∈ fs)
    (hsub : lowerText f.question <:+: lowerText uq) :
    5 ≤ score uq f
    ∧ (resolve uq fs ai).found = true
    ∧ (resolve uq fs ai).source = Source.database
    ∧ (resolve uq fs ai).strategy = some Strategy.databaseFirst
    ∧ (∀ ai2 : AIService, resolve uq fs ai = resolve uq fs ai2) := by
  have h5 : 5 ≤ score uq f := by
    rw [score_formula]
    unfold scoreSpec
    have hs1 : (0:ℚ) ≤ ((pywords (lowerText f.question)).map
        (fun w => if 2 < w.length ∧ w <:+: lowerText uq then (1 : ℚ) else 0)).sum := by
      apply List.sum_nonneg
      intro x hx
      obtain ⟨w, _, rfl⟩ := List.mem_map.mp hx
      split <;> norm_num
    have hs2 : (0:ℚ) ≤ ((pywords (lowerText f.answer)).map
        (fun w => if 2 < w.length ∧ w <:+: lowerText uq then (1/2 : ℚ) else 0)).sum := by
      apply List.sum_nonneg
      intro x hx
      obtain ⟨w, _, rfl⟩ := List.mem_map.mp hx
      split <;> norm_num
    have hs4 : (0:ℚ) ≤ (if lowerText uq <:+: lowerText f.answer ∨
        lowerText f.answer <:+: lowerText uq then (3:ℚ) else 0) := by
      split <;> norm_num
    rw [if_pos (Or.inr hsub)]
    linarith
  have hM5 : 5 ≤ runMax uq 0 fs :=
    le_trans h5 (score_le_runMax uq fs 0 f hmem)
  have hpos : 0 < runMax uq 0 fs := by linarith
  have hsome : ∃ g ∈ fs, score uq g = runMax uq 0 fs := by
    rcases runMax_attained uq fs 0 with h | ⟨g, hg, hgeq⟩
    · rw [h] at hpos; exact absurd hpos (lt_irrefl 0)
    · exact ⟨g, hg, hgeq.symm⟩
  have hfind : ∃ g, fs.find? (fun g => decide (score uq g = runMax uq 0 fs)) = some g := by
    apply Option.isSome_iff_exists.mp
    rw [List.find?_isSome]
    obtain ⟨g, hg, hgeq⟩ := hsome
    exact ⟨g, hg, by simpa using hgeq⟩
  obtain ⟨g, hg⟩ := hfind
  have hsel : selectBest uq fs = (some g, runMax uq 0 fs) := by
    rw [selectBest_char uq fs hpos, hg]
  have h2M : 2 ≤ runMax uq 0 fs := by linarith
  have hres : ∀ ai3 : AIService, resolve uq fs ai3 = dbConfidentResult g (runMax uq 0 fs) :=
    fun ai3 => resolve_db uq fs ai3 g (runMax uq 0 fs) hsel h2M
  rw [hres ai]
  refine ⟨h5, rfl, rfl, rfl, ?_⟩
  intro ai2
  rw [hres ai2]

theorem containment_database_confident_witness :
    (⟨7, str "reset password", str "yy"⟩ : FAQ) ∈
        [(⟨7, str "reset password", str "yy"⟩ : FAQ)]
    ∧ lowerText (str "reset password") <:+: lowerText (str "please reset password now")
    ∧ (5 ≤ score (str "please reset password now") ⟨7, str "reset password", str "yy"⟩
      ∧ (resolve (str "please reset password now") [⟨7, str "reset password", str "yy"⟩]
          (fun _ _ => Except.error (str "down"))).found = true
      ∧ (resolve (str "please reset password now") [⟨7, str "reset password", str "yy"⟩]
          (fun _ _ => Except.error (str "down"))).source = Source.database
      ∧ (resolve (str "please reset password now") [⟨7, str "reset password", str "yy"⟩]
          (fun _ _ => Except.error (str "down"))).strategy = some Strategy.databaseFirst
      ∧ (∀ ai2 : AIService,
          resolve (str "please reset password now") [⟨7, str "reset password", str "yy"⟩]
            (fun _ _ => Except.error (str "down"))
          = resolve (str "please reset password now") [⟨7, str "reset password", str "yy"⟩] ai2)) :=
  ⟨by decide, by decide,
    containment_database_confident (str "please reset password now")
      [⟨7, str "reset password", str "yy"⟩] ⟨7, str "reset password", str "yy"⟩
      (fun _ _ => Except.error (str "down")) (by decide) (by decide)⟩

/-- Claim C4 is false as stated: resolving a (nonempty) question against an
empty candidate sequence yields the fixed no-FAQs reply whose source tier is
`database` (the code's literal `'source': 'database'` in the empty-database
branch), not `no_match`; `found` is false as claimed. -/
theorem no_faqs_counterex :
    (resolve (str "hi") [] (fun _ _ => Except.error (str "down"))).source = Source.database
    ∧ (resolve (str "hi") [] (fun _ _ => Except.error (str "down"))).source ≠ Source.noMatch
    ∧ (resolve (str "hi") [] (fun _ _ => Except.error (str "down"))).found = false := by
  refine ⟨by decide, by decide, by decide⟩

/-- Claim C4 (amended): for every question resolved against an empty
candidate sequence, the result is the fixed "No FAQs available" reply with
found = false and source tier `database` (not `no_match`), independently of
the AI collaborator, which is never invoked on this path. -/
theorem no_faqs_result (uq : Text) (ai ai2 : AIService) :
    resolve uq [] ai = noFaqsResult
    ∧ (resolve uq [] ai).source = Source.database
    ∧ (resolve uq [] ai).found = false
    ∧ resolve uq [] ai = resolve uq [] ai2 :=
  ⟨rfl, rfl, rfl, rfl⟩

/-- Claim C5: when the AI collaborator fails and the selected best candidate
has positive score below the confidence threshold 2, the result is the
database-fallback tier: source `database_fallback`, confidence low,
found, strategy `database_fallback`, the AI error text attached as
diagnostics, and in particular never `no_match` or `error`. -/
theorem ai_failure_db_fallback (uq : Text) (fs : List FAQ) (ai : AIService)
    (e : Text) (f : FAQ) (bs : ℚ)
    (hfail : ai uq fs = Except.error e)
    (hsel : selectBest uq fs = (some f, bs))
    (hpos : 0 < bs) (hlt : bs < 2) :
    resolve uq fs ai = dbFallbackResult f bs e
    ∧ (resolve uq fs ai).source = Source.databaseFallback
    ∧ (resolve uq fs ai).confidence = Confidence.low
    ∧ (resolve uq fs ai).found = true
    ∧ (resolve uq fs ai).strategy = some Strategy.databaseFallback
    ∧ (resolve uq fs ai).aiError = some e
    ∧ (resolve uq fs ai).relevanceScore = some bs
    ∧ (resolve uq fs ai).source ≠ Source.noMatch
    ∧ (resolve uq fs ai).source ≠ Source.error := by
  have hstep : resolve uq fs ai = dbFallbackResult f bs e := by
    rw [resolve_not_confident uq fs ai f bs hsel (not_le.mpr hlt)]
    simp only [tryAI, hfail, afterAIFail, if_pos hpos]
  rw [hstep]
  exact ⟨rfl, rfl, rfl, rfl, rfl, rfl, rfl,
    fun h => Source.noConfusion h, fun h => Source.noConfusion h⟩

theorem ai_failure_db_fallback_witness :
    ((fun _ _ => Except.error (str "down")) : AIService) (str "hello there")
        [⟨1, str "hello world", str "xx"⟩] = Except.error (str "down")
    ∧ selectBest (str "hello there") [⟨1, str "hello world", str "xx"⟩]
        = (some ⟨1, str "hello world", str "xx"⟩, 1)
    ∧ (0:ℚ) < 1 ∧ (1:ℚ) < 2
    ∧ (resolve (str "hello there") [⟨1, str "hello world", str "xx"⟩]
        (fun _ _ => Except.error (str "down"))
        = dbFallbackResult ⟨1, str "hello world", str "xx"⟩ 1 (str "down")
      ∧ (resolve (str "hello there") [⟨1, str "hello world", str "xx"⟩]
          (fun _ _ => Except.error (str "down"))).source = Source.databaseFallback) := by
  have hsel : selectBest (str "hello there") [⟨1, str "hello world", str "xx"⟩]
      = (some ⟨1, str "hello world", str "xx"⟩, 1) := by
    rw [selectBest_half]
    rw [(by decide : selectBest2 (str "hello there") [⟨1, str "hello world", str "xx"⟩]
      = (some ⟨1, str "hello world", str "xx"⟩, 2))]
    norm_num [Prod.ext_iff]
  have hmain := ai_failure_db_fallback (str "hello there") [⟨1, str "hello world", str "xx"⟩]
    (fun _ _ => Except.error (str "down")) (str "down") ⟨1, str "hello world", str "xx"⟩ 1
    rfl hsel (by norm_num) (by norm_num)
  exact ⟨rfl, hsel, by norm_num, by norm_num, hmain.1, hmain.2.1⟩

/-- Claim C6: resolution is deterministic — two resolve calls with the same
question, the same candidate sequence and extensionally equal (hence
deterministic) AI collaborators produce identical `ResolutionResult` values
in every field. -/
theorem resolve_deterministic (uq : Text) (fs : List FAQ) (ai1 ai2 : AIService)
    (h : ∀ q c, ai1 q c = ai2 q c) :
    resolve uq fs ai1 = resolve uq fs ai2 := by
  unfold resolve tryAI
  rw [h uq fs]

theorem resolve_deterministic_witness :
    resolve (str "hi") [⟨1, str "aa", str "bb"⟩] (fun _ _ => Except.error (str "x"))
      = resolve (str "hi") [⟨1, str "aa", str "bb"⟩] (fun _ _ => Except.error (str "x")) :=
  resolve_deterministic (str "hi") [⟨1, str "aa", str "bb"⟩]
    (fun _ _ => Except.error (str "x")) (fun _ _ => Except.error (str "x"))
    (fun _ _ => rfl)

/-- Claim C8 is false as stated: for the single candidate
(question "How to reset my password?", answer "...") and the user question
"how do I reset my password", the score is exactly 2 — only the tokens "how"
and "reset" match ("password?" with its question mark does not occur in the
user question, and neither full text contains the other) — so the match is
confident at threshold 2 but labeled medium, not high, and the claimed
score of at least 6 is wrong. -/
theorem scenario_a_counterex :
    score (str "how do I reset my password")
        ⟨1, str "How to reset my password?", str "..."⟩ = 2
    ∧ ¬ (6 ≤ score (str "how do I reset my password")
        ⟨1, str "How to reset my password?", str "..."⟩)
    ∧ (resolve (str "how do I reset my password")
        [⟨1, str "How to reset my password?", str "..."⟩]
        (fun _ _ => Except.error (str "ai down"))).confidence = Confidence.medium
    ∧ (resolve (str "how do I reset my password")
        [⟨1, str "How to reset my password?", str "..."⟩]
        (fun _ _ => Except.error (str "ai down"))).confidence ≠ Confidence.high := by
  have hs : score (str "how do I reset my password")
      ⟨1, str "How to reset my password?", str "..."⟩ = 2 := by
    rw [score_eq_half]
    rw [(by decide : score2 (str "how do I reset my password")
      ⟨1, str "How to reset my password?", str "..."⟩ = 4)]
    norm_num
  have hsel : selectBest (str "how do I reset my password")
      [⟨1, str "How to reset my password?", str "..."⟩]
      = (some ⟨1, str "How to reset my password?", str "..."⟩, 2) := by
    rw [selectBest_half]
    rw [(by decide : selectBest2 (str "how do I reset my password")
      [⟨1, str "How to reset my password?", str "..."⟩]
      = (some ⟨1, str "How to reset my password?", str "..."⟩, 4))]
    norm_num [Prod.ext_iff]
  have hres : resolve (str "how do I reset my password")
      [⟨1, str "How to reset my password?", str "..."⟩]
      (fun _ _ => Except.error (str "ai down"))
      = dbConfidentResult ⟨1, str "How to reset my password?", str "..."⟩ 2 :=
    resolve_db _ _ _ _ _ hsel (by norm_num)
  have hconf : (dbConfidentResult ⟨1, str "How to reset my password?", str "..."⟩ 2).confidence
      = Confidence.medium := by
    simp only [dbConfidentResult]
    rw [if_neg (by norm_num : ¬ (3:ℚ) < 2)]
  refine ⟨hs, by rw [hs]; norm_num, by rw [hres, hconf], ?_⟩
  rw [hres, hconf]
  exact fun h => Confidence.noConfusion h

/-- Claim C8 (amended): in scenario A the score is 2 (word overlap on "how"
and "reset" only), which meets the confidence threshold 2, so the resolution
returns the database tier with confidence medium (2 is not above the
high-label threshold 3), found = true, strategy `database_first`, and
relevance score 2. -/
theorem scenario_a_amended :
    score (str "how do I reset my password")
        ⟨1, str "How to reset my password?", str "..."⟩ = 2
    ∧ resolve (str "how do I reset my password")
        [⟨1, str "How to reset my password?", str "..."⟩]
        (fun _ _ => Except.error (str "ai down"))
      = dbConfidentResult ⟨1, str "How to reset my password?", str "..."⟩ 2
    ∧ (resolve (str "how do I reset my password")
        [⟨1, str "How to reset my password?", str "..."⟩]
        (fun _ _ => Except.error (str "ai down"))).source = Source.database
    ∧ (resolve (str "how do I reset my password")
        [⟨1, str "How to reset my password?", str "..."⟩]
        (fun _ _ => Except.error (str "ai down"))).found = true
    ∧ (resolve (str "how do I reset my password")
        [⟨1, str "How to reset my password?", str "..."⟩]
        (fun _ _ => Except.error (str "ai down"))).strategy = some Strategy.databaseFirst
    ∧ (resolve (str "how do I reset my password")
        [⟨1, str "How to reset my password?", str "..."⟩]
        (fun _ _ => Except.error (str "ai down"))).confidence = Confidence.medium
    ∧ (resolve (str "how do I reset my password")
        [⟨1, str "How to reset my password?", str "..."⟩]
        (fun _ _ => Except.error (str "ai down"))).relevanceScore = some 2 := by
  have hs : score (str "how do I reset my password")
      ⟨1, str "How to reset my password?", str "..."⟩ = 2 := by
    rw [score_eq_half]
    rw [(by decide : score2 (str "how do I reset my password")
      ⟨1, str "How to reset my password?", str "..."⟩ = 4)]
    norm_num
  have hsel : selectBest (str "how do I reset my password")
      [⟨1, str "How to reset my password?", str "..."⟩]
      = (some ⟨1, str "How to reset my password?", str "..."⟩, 2) := by
    rw [selectBest_half]
    rw [(by decide : selectBest2 (str "how do I reset my password")
      [⟨1, str "How to reset my password?", str "..."⟩]
      = (some ⟨1, str "How to reset my password?", str "..."⟩, 4))]
    norm_num [Prod.ext_iff]
  have hres : resolve (str "how do I reset my password")
      [⟨1, str "How to reset my password?", str "..."⟩]
      (fun _ _ => Except.error (str "ai down"))
      = dbConfidentResult ⟨1, str "How to reset my password?", str "..."⟩ 2 :=
    resolve_db _ _ _ _ _ hsel (by norm_num)
  have hconf : (dbConfidentResult ⟨1, str "How to reset my password?", str "..."⟩ 2).confidence
      = Confidence.medium := by
    simp only [dbConfidentResult]
    rw [if_neg (by norm_num : ¬ (3:ℚ) < 2)]
  exact ⟨hs, hres, by rw [hres]; rfl, by rw [hres]; rfl, by rw [hres]; rfl,
    by rw [hres, hconf], by rw [hres]; rfl⟩

/-- Claim C9: because the selection loop starts from best score 0 and only
replaces it on a strict improvement, a candidate set in which every
candidate scores exactly 0 yields no best match (just like an empty set), so
the AI path is always attempted; if the AI collaborator fails there the
result is the partial-match or no-match tier, and the database and
database-fallback tiers are unreachable. -/
theorem all_zero_ai_path (uq : Text) (fs : List FAQ) (ai : AIService)
    (hne : fs ≠ []) (hz : ∀ f ∈ fs, score uq f = 0) :
    (selectBest uq fs).1 = none
    ∧ (∀ r, ai uq fs = Except.ok r → resolve uq fs ai = aiAnswerResult r)
    ∧ (∀ e, ai uq fs = Except.error e →
        ((resolve uq fs ai).source = Source.partialMatch
          ∨ (resolve uq fs ai).source = Source.noMatch)
        ∧ (resolve uq fs ai).source ≠ Source.database
        ∧ (resolve uq fs ai).source ≠ Source.databaseFallback) := by
  have hsel : selectBest uq fs = (none, 0) :=
    selectBest_all_nonpos uq fs (fun f hf => le_of_eq (hz f hf))
  have hres : resolve uq fs ai = tryAI uq fs ai (none, 0) :=
    resolve_none_best uq fs ai 0 hne hsel
  refine ⟨by rw [hsel], ?_, ?_⟩
  · intro r hr
    rw [hres]
    simp only [tryAI, hr]
  · intro e he
    rw [hres]
    simp only [tryAI, he, afterAIFail, partialOrNoMatch]
    cases hph : partialHits uq fs with
    | nil =>
      exact ⟨Or.inr rfl, fun h => Source.noConfusion h, fun h => Source.noConfusion h⟩
    | cons h t =>
      exact ⟨Or.inl rfl, fun h => Source.noConfusion h, fun h => Source.noConfusion h⟩

theorem all_zero_ai_path_witness :
    ([(⟨1, str "zz", str "yy"⟩ : FAQ)] ≠ [])
    ∧ (∀ f ∈ [(⟨1, str "zz", str "yy"⟩ : FAQ)], score (str "qq") f = 0)
    ∧ ((selectBest (str "qq") [⟨1, str "zz", str "yy"⟩]).1 = none
      ∧ (∀ r, ((fun _ _ => Except.error (str "x")) : AIService) (str "qq")
            [⟨1, str "zz", str "yy"⟩] = Except.ok r →
          resolve (str "qq") [⟨1, str "zz", str "yy"⟩]
            (fun _ _ => Except.error (str "x")) = aiAnswerResult r)
      ∧ (∀ e, ((fun _ _ => Except.error (str "x")) : AIService) (str "qq")
            [⟨1, str "zz", str "yy"⟩] = Except.error e →
          ((resolve (str "qq") [⟨1, str "zz", str "yy"⟩]
              (fun _ _ => Except.error (str "x"))).source = Source.partialMatch
            ∨ (resolve (str "qq") [⟨1, str "zz", str "yy"⟩]
                (fun _ _ => Except.error (str "x"))).source = Source.noMatch)
          ∧ (resolve (str "qq") [⟨1, str "zz", str "yy"⟩]
              (fun _ _ => Except.error (str "x"))).source ≠ Source.database
          ∧ (resolve (str "qq") [⟨1, str "zz", str "yy"⟩]
              (fun _ _ => Except.error (str "x"))).source ≠ Source.databaseFallback)) := by
  have hz : ∀ f ∈ [(⟨1, str "zz", str "yy"⟩ : FAQ)], score (str "qq") f = 0 := by
    intro f hf
    simp only [List.mem_singleton] at hf
    subst hf
    rw [score_eq_half, (by decide : score2 (str "qq") ⟨1, str "zz", str "yy"⟩ = 0)]
    norm_num
  exact ⟨by simp, hz,
    all_zero_ai_path (str "qq") [⟨1, str "zz", str "yy"⟩]
      (fun _ _ => Except.error (str "x")) (by simp) hz⟩

theorem filterMap_if {β : Type} (p : List Char → Prop) [DecidablePred p]
    (g : List Char → β) :
    ∀ l : List (List Char),
      l.filterMap (fun w => if p w then some (g w) else none)
        = (l.filter (fun w => decide (p w))).map g := by
  intro l
  induction l with
  | nil => rfl
  | cons w t ih =>
    by_cases hw : p w
    · simp only [List.filterMap_cons, List.filter_cons, if_pos hw, ih]
      rw [if_pos (by simpa using hw)]
      rfl
    · simp only [List.filterMap_cons, List.filter_cons, if_neg hw, ih]
      rw [if_neg (by simpa using hw)]

theorem pyMaxBy_all_le (key : PartialHit → ℚ) :
    ∀ (t : List PartialHit) (cur : PartialHit),
      (∀ x ∈ t, key x ≤ key cur) → pyMaxBy key cur t = cur := by
  intro t
  induction t with
  | nil => intro cur _; rfl
  | cons h t2 ih =>
    intro cur hall
    simp only [pyMaxBy]
    rw [if_neg (not_lt.mpr (hall h (List.mem_cons_self h t2)))]
    exact ih cur (fun x hx => hall x (List.mem_cons_of_mem h hx))

theorem find_eq_head_filter {α : Type} (p : α → Bool) :
    ∀ l : List α, l.find? p = (l.filter p).head? := by
  intro l
  induction l with
  | nil => rfl
  | cons a t ih =>
    by_cases ha : p a
    · rw [List.find?_cons_of_pos _ ha, List.filter_cons, if_pos ha]
      rfl
    · rw [List.find?_cons_of_neg _ ha, List.filter_cons, if_neg ha, ih]

theorem partialHits_filter_form (uq : Text) (fs : List FAQ) :
    partialHits uq fs
      = (fs.map (fun f => ((pywords (lowerText uq)).filter (hitTest f)).map
          (fun w => ({ faq := f, matchedWord := w, hitScore := 1 } : PartialHit)))).flatten := by
  unfold partialHits
  refine congrArg List.flatten ?_
  refine List.map_congr_left ?_
  intro f _
  rw [filterMap_if]
  rfl

theorem partialHits_cons (uq : Text) (f : FAQ) (gs : List FAQ) :
    partialHits uq (f :: gs)
      = ((pywords (lowerText uq)).filter (hitTest f)).map
          (fun w => ({ faq := f, matchedWord := w, hitScore := 1 } : PartialHit))
        ++ partialHits uq gs := by
  unfold partialHits
  rw [List.map_cons, List.flatten_cons, filterMap_if]
  rfl

theorem partialHits_score_one (uq : Text) (fs : List FAQ) :
    ∀ h ∈ partialHits uq fs, h.hitScore = 1 := by
  intro h hh
  rw [partialHits_filter_form] at hh
  obtain ⟨l, hl, hmem⟩ := List.mem_flatten.mp hh
  obtain ⟨f, _, rfl⟩ := List.mem_map.mp hl
  obtain ⟨w, _, rfl⟩ := List.mem_map.mp hmem
  rfl

theorem partialHits_head (uq : Text) :
    ∀ fs : List FAQ,
      (partialHits uq fs).head?
        = (fs.find? (fun f => (pywords (lowerText uq)).any (hitTest f))).bind
            (fun f => ((pywords (lowerText uq)).find? (hitTest f)).map
              (fun w => { faq := f, matchedWord := w, hitScore := 1 })) := by
  intro fs
  induction fs with
  | nil => rfl
  | cons f gs ih =>
    by_cases hany : (pywords (lowerText uq)).any (hitTest f) = true
    · rw [List.find?_cons_of_pos _ (by simpa using hany)]
      have hfind : ∃ w, (pywords (lowerText uq)).find? (hitTest f) = some w := by
        apply Option.isSome_iff_exists.mp
        rw [List.find?_isSome]
        simpa using List.any_eq_true.mp hany
      obtain ⟨w, hw⟩ := hfind
      have hhead : (((pywords (lowerText uq)).filter (hitTest f)).map
          (fun w => ({ faq := f, matchedWord := w, hitScore := 1 } : PartialHit))).head?
          = some { faq := f, matchedWord := w, hitScore := 1 } := by
        rw [List.head?_map, ← find_eq_head_filter, hw]
        rfl
      cases hblock : ((pywords (lowerText uq)).filter (hitTest f)).map
          (fun w => ({ faq := f, matchedWord := w, hitScore := 1 } : PartialHit)) with
      | nil =>
        rw [hblock] at hhead
        cases hhead
      | cons b bl =>
        rw [hblock] at hhead
        simp only [List.head?_cons] at hhead
        have hb2 : b = { faq := f, matchedWord := w, hitScore := 1 } :=
          Option.some.inj hhead
        subst hb2
        rw [partialHits_cons, hblock, List.cons_append, List.head?_cons]
        show some ({ faq := f, matchedWord := w, hitScore := 1 } : PartialHit)
            = ((pywords (lowerText uq)).find? (hitTest f)).map
                (fun w => { faq := f, matchedWord := w, hitScore := 1 })
        rw [hw]
        rfl
    · rw [List.find?_cons_of_neg _ (by simpa using hany)]
      have hempty : (pywords (lowerText uq)).filter (hitTest f) = [] := by
        rw [List.filter_eq_nil_iff]
        intro w hwmem
        simp only [List.any_eq_true, not_exists] at hany
        intro hp
        exact hany w ⟨hwmem, hp⟩
      rw [partialHits_cons, hempty]
      simp only [List.map_nil, List.nil_append]
      exact ih

/-- Claim C10: every hit recorded by the partial-match scan carries the
constant local score 1, so picking the hit with the highest score (the
Python `max` over the stored scores, which keeps the first of equal-key
elements) always returns the first hit in scan order; that first hit pairs
the first candidate in input order having any matching user-question token
(longer than 3 characters, contained in that candidate's question or
answer) with the first such token of that candidate in token order; and the
scan records one hit per matching token per candidate, so one candidate can
contribute several hits. -/
theorem partialScanFirstHit (uq : Text) (fs : List FAQ) :
    (∀ h ∈ partialHits uq fs, h.hitScore = 1)
    ∧ (∀ h t, partialHits uq fs = h :: t → pyMaxBy PartialHit.hitScore h t = h)
    ∧ (partialHits uq fs).head?
        = (fs.find? (fun f => (pywords (lowerText uq)).any (hitTest f))).bind
            (fun f => ((pywords (lowerText uq)).find? (hitTest f)).map
              (fun w => { faq := f, matchedWord := w, hitScore := 1 }))
    ∧ partialHits uq fs
        = (fs.map (fun f => ((pywords (lowerText uq)).filter (hitTest f)).map
            (fun w => ({ faq := f, matchedWord := w, hitScore := 1 } : PartialHit)))).flatten := by
  refine ⟨partialHits_score_one uq fs, ?_, partialHits_head uq fs,
    partialHits_filter_form uq fs⟩
  intro h t heq
  apply pyMaxBy_all_le
  intro x hx
  have hx2 : x ∈ partialHits uq fs := by
    rw [heq]
    exact List.mem_cons_of_mem h hx
  have hh2 : h ∈ partialHits uq fs := by
    rw [heq]
    exact List.mem_cons_self h t
  rw [partialHits_score_one uq fs x hx2, partialHits_score_one uq fs h hh2]

theorem partialScanFirstHit_witness :
    partialHits (str "vacation time") [⟨1, str "vacation policy", str "xx"⟩]
      = [{ faq := ⟨1, str "vacation policy", str "xx"⟩,
           matchedWord := str "vacation", hitScore := 1 }]
    ∧ pyMaxBy PartialHit.hitScore
        { faq := ⟨1, str "vacation policy", str "xx"⟩,
          matchedWord := str "vacation", hitScore := 1 } []
      = { faq := ⟨1, str "vacation policy", str "xx"⟩,
          matchedWord := str "vacation", hitScore := 1 } := by
  have hph : partialHits (str "vacation time") [⟨1, str "vacation policy", str "xx"⟩]
      = [{ faq := ⟨1, str "vacation policy", str "xx"⟩,
           matchedWord := str "vacation", hitScore := 1 }] := by
    rfl
  exact ⟨hph, (partialScanFirstHit (str "vacation time")
    [⟨1, str "vacation policy", str "xx"⟩]).2.1 _ [] hph⟩
